import Mathlib

set_option maxHeartbeats 1000000

/-!
Shallow embedding of the `ThreadPool` class of `src/ThreadPool.h`.

The pool's shared state (`workers` vector, `tasks` queue, `stop` flag) is
modelled by the structure `ThreadPool`, extended with ghost fields that record
what the C++ runtime tracks implicitly: `running` (tasks popped by a worker and
currently executing), `fulfilled` (ids of tasks whose `std::future` result
handle has been written), `diags` (lines printed to `std::cerr` by the worker
loop's catch blocks), and fresh-id counters for tasks and worker threads.

A task body is summarised by its observable `Outcome`: it returns normally,
throws an `std::exception`, or throws a non-standard exception.

Operations are transcribed from the source:
  * `ThreadPool.enqueue`   — the `enqueue` template (lines 33-56);
  * `ThreadPool.clear`     — `clear` (lines 60-63);
  * `ThreadPool.resize`    — `resize` (lines 107-161);
  * `workerBegin`/`runTask` — one iteration of the worker consume-loop
    (constructor lines 68-92, and the identical copy in `resize` lines 137-158).

Lock discipline is modelled separately by per-operation action traces
(`List Act`), also transcribed from the source, with `annotateHeld`
computing whether the single `queue_mutex` is held at each action.
-/

inductive Outcome where
  | ok
  | stdExn
  | nonStdExn
deriving DecidableEq

structure PoolTask where
  id : Nat
  outcome : Outcome
deriving DecidableEq

structure ThreadPool where
  workers : List Nat
  tasks : List PoolTask
  running : List PoolTask
  fulfilled : List Nat
  diags : List String
  stop : Bool
  nextTaskId : Nat
  nextWorkerId : Nat
deriving DecidableEq

/-- The two `std::runtime_error` throws of `enqueue` (lines 35 and 47). -/
inductive EnqueueError where
  | emptyPool
  | stoppedPool
deriving DecidableEq

/-- Transcribes `ThreadPool::enqueue` (lines 33-56): throws `emptyPool` when
`workers.size() == 0`, otherwise packages the task, throws `stoppedPool` under
lock when `stop` is set, otherwise pushes the task at the back of the queue and
returns the future (modelled by the fresh task id) to the caller. -/
def ThreadPool.enqueue (s : ThreadPool) (out : Outcome) :
    Except EnqueueError (ThreadPool × Nat) :=
  if s.workers.length = 0 then
    Except.error EnqueueError.emptyPool
  else
    let task : PoolTask := { id := s.nextTaskId, outcome := out }
    if s.stop then
      Except.error EnqueueError.stoppedPool
    else
      Except.ok
        ({ s with tasks := s.tasks ++ [task], nextTaskId := s.nextTaskId + 1 },
         task.id)

/-- Transcribes `ThreadPool::clear` (lines 60-63): swap the task queue with a
default-constructed (empty) one.  Nothing else is touched. -/
def ThreadPool.clear (s : ThreadPool) : ThreadPool :=
  { s with tasks := [] }

/-- Transcribes `ThreadPool::resize` (lines 107-161), net effect on the pool state.
Shrink joins and erases the workers at indices `[k, size)`; during it the
`stop` flag is set and then reset to `false`, so `stop` is unchanged when the
function returns.  Grow appends `k - size` fresh worker threads.  Equal count
is a no-op. -/
def ThreadPool.resize (s : ThreadPool) (k : Nat) : ThreadPool :=
  let sz := s.workers.length
  if k < sz then
    { s with workers := s.workers.take k }
  else if k > sz then
    { s with workers := s.workers ++ List.range' s.nextWorkerId (k - sz),
             nextWorkerId := s.nextWorkerId + (k - sz) }
  else
    s

/-- Transcribes the destructor `~ThreadPool` (lines 96-105), effect on the shared state: set `stop`.
(The destructor then joins every worker; the worker loop semantics below
describe what a worker does once `stop` is set.) -/
def ThreadPool.shutdown (s : ThreadPool) : ThreadPool :=
  { s with stop := true }

/-- The constructor `ThreadPool(threads)` (lines 65-94). -/
def ThreadPool.create (n : Nat) : ThreadPool :=
  { workers := List.range n, tasks := [], running := [], fulfilled := [],
    diags := [], stop := false, nextTaskId := 0, nextWorkerId := n }

/-- The condition-variable predicate `stop || !tasks.empty()` (line 75). -/
def waitPred (s : ThreadPool) : Bool :=
  s.stop || !s.tasks.isEmpty

/-- The worker exit test `stop && tasks.empty()` (line 76). -/
def shouldExit (s : ThreadPool) : Bool :=
  s.stop && s.tasks.isEmpty

/-- Possible outcomes of one pass through the locked region of the worker
consume-loop (lines 72-81). -/
inductive WorkerView where
  | blocked
  | exited
  | popped (t : PoolTask) (s : ThreadPool)
deriving DecidableEq

/-- The locked region of one worker-loop iteration (lines 72-81): wait until
`stop || !tasks.empty()`; if `stop && tasks.empty()` return (exit the thread);
otherwise move the front task out of the queue (it is now owned by this
worker, recorded in `running`). -/
def workerBegin (s : ThreadPool) : WorkerView :=
  if waitPred s = false then
    WorkerView.blocked
  else if shouldExit s then
    WorkerView.exited
  else
    match s.tasks with
    | [] => WorkerView.blocked
    | t :: rest =>
        WorkerView.popped t { s with tasks := rest, running := s.running ++ [t] }

/-- The unlocked region of one worker-loop iteration (lines 82-90): invoke the
task outside the lock.  The packaged task writes the result handle exactly once
(`fulfilled`); if the body throws, the catch blocks print a diagnostic to
`std::cerr` and the loop continues. -/
def runTask (t : PoolTask) (s : ThreadPool) : ThreadPool :=
  if t ∈ s.running then
    let s' := { s with running := s.running.erase t,
                       fulfilled := s.fulfilled ++ [t.id] }
    match t.outcome with
    | Outcome.ok => s'
    | Outcome.stdExn =>
        { s' with diags := s'.diags ++ ["Caught exception in thread pool task"] }
    | Outcome.nonStdExn =>
        { s' with diags :=
            s'.diags ++ ["Caught non-standard exception in thread pool task"] }
  else
    s

/-- Run one worker against the pool for at most `fuel` loop iterations.
Returns the final pool state and whether the worker thread exited (line 76
`return`).  After executing a task — successfully or not — the worker loops
back to waiting (lines 69, 91). -/
def workerRun : Nat → ThreadPool → ThreadPool × Bool
  | 0, s => (s, false)
  | fuel + 1, s =>
      match workerBegin s with
      | WorkerView.blocked => (s, false)
      | WorkerView.exited => (s, true)
      | WorkerView.popped t s' => workerRun fuel (runTask t s')

/-- Interleavable atomic operations on the pool state. -/
inductive Op where
  | enq (out : Outcome)
  | beginTask
  | endTask (t : PoolTask)
  | clearOp
  | resizeOp (k : Nat)
  | shutdownOp

/-- One step of the pool-state transition system.  A throwing `enqueue` leaves
the state unchanged (both throws happen before the push). -/
def step (s : ThreadPool) (op : Op) : ThreadPool :=
  match op with
  | Op.enq out =>
      match s.enqueue out with
      | Except.error _ => s
      | Except.ok (s', _) => s'
  | Op.beginTask =>
      match workerBegin s with
      | WorkerView.popped _ s' => s'
      | _ => s
  | Op.endTask t => runTask t s
  | Op.clearOp => s.clear
  | Op.resizeOp k => s.resize k
  | Op.shutdownOp => s.shutdown

/-- Run a sequence of operations. -/
def run (s : ThreadPool) : List Op → ThreadPool
  | [] => s
  | op :: ops => run (step s op) ops

/-- Concrete pools used to instantiate the theorems. -/
def poolReady : ThreadPool :=
  { workers := [0, 1], tasks := [], running := [], fulfilled := [],
    diags := [], stop := false, nextTaskId := 0, nextWorkerId := 2 }

def poolNoWorkers : ThreadPool :=
  { poolReady with workers := [], nextWorkerId := 0 }

def poolStopped : ThreadPool :=
  { poolReady with stop := true }

def poolWithQueue : ThreadPool :=
  { poolReady with
      tasks := [{ id := 0, outcome := Outcome.ok },
                { id := 1, outcome := Outcome.stdExn },
                { id := 2, outcome := Outcome.ok }],
      nextTaskId := 3 }

/-- Claim C1: `enqueue` fails (throws) iff the pool has no workers or its stop
flag is set; on failure nothing is enqueued (the step leaves the pool
unchanged); otherwise the task is appended at the back of the queue and a
result handle (the fresh task id) is returned. -/
theorem enqueue_invalid_state_iff (s : ThreadPool) (out : Outcome) :
    ((s.workers = [] ∨ s.stop = true) →
        (∃ e, s.enqueue out = Except.error e) ∧ step s (Op.enq out) = s)
    ∧ (s.workers ≠ [] → s.stop = false →
        s.enqueue out = Except.ok
          ({ s with tasks := s.tasks ++ [{ id := s.nextTaskId, outcome := out }],
                    nextTaskId := s.nextTaskId + 1 }, s.nextTaskId))
    ∧ ((∃ e, s.enqueue out = Except.error e) ↔ (s.workers = [] ∨ s.stop = true)) := by
  by_cases hw : s.workers = []
  · refine ⟨fun _ => ⟨⟨EnqueueError.emptyPool, ?_⟩, ?_⟩, fun hne => absurd hw hne, ?_⟩
    · simp [ThreadPool.enqueue, hw]
    · simp [step, ThreadPool.enqueue, hw]
    · exact ⟨fun _ => Or.inl hw, fun _ => ⟨EnqueueError.emptyPool, by simp [ThreadPool.enqueue, hw]⟩⟩
  · have hlen : ¬ s.workers.length = 0 := by
      simpa [List.length_eq_zero] using hw
    by_cases hs : s.stop
    · refine ⟨fun _ => ⟨⟨EnqueueError.stoppedPool, ?_⟩, ?_⟩, fun _ hs' => by simp [hs] at hs', ?_⟩
      · simp [ThreadPool.enqueue, hlen, hs]
      · simp [step, ThreadPool.enqueue, hlen, hs]
      · exact ⟨fun _ => Or.inr hs,
          fun _ => ⟨EnqueueError.stoppedPool, by simp [ThreadPool.enqueue, hlen, hs]⟩⟩
    · refine ⟨fun h => ?_, fun _ _ => ?_, ?_⟩
      · rcases h with h | h
        · exact absurd h hw
        · exact absurd h hs
      · simp [ThreadPool.enqueue, hlen, hs]
      · constructor
        · rintro ⟨e, he⟩
          simp [ThreadPool.enqueue, hlen, hs] at he
        · rintro (h | h)
          · exact absurd h hw
          · exact absurd h hs

/-- Concrete instantiation of `enqueue_invalid_state_iff`: a zero-worker pool
and a stopped pool both reject an `enqueue` leaving the queue unchanged, and a
ready pool accepts it. -/
theorem enqueue_invalid_state_iff_witness :
    ((∃ e, poolNoWorkers.enqueue Outcome.ok = Except.error e)
      ∧ step poolNoWorkers (Op.enq Outcome.ok) = poolNoWorkers)
    ∧ ((∃ e, poolStopped.enqueue Outcome.ok = Except.error e)
      ∧ step poolStopped (Op.enq Outcome.ok) = poolStopped)
    ∧ poolReady.enqueue Outcome.ok = Except.ok
        ({ poolReady with tasks := [{ id := 0, outcome := Outcome.ok }],
                          nextTaskId := 1 }, 0) :=
  ⟨(enqueue_invalid_state_iff poolNoWorkers Outcome.ok).1 (Or.inl rfl),
   (enqueue_invalid_state_iff poolStopped Outcome.ok).1 (Or.inr rfl),
   by
     have h := (enqueue_invalid_state_iff poolReady Outcome.ok).2.1
       (by decide) rfl
     simpa [poolReady] using h⟩

/-- Dequeue repeatedly through the worker loop's locked region, collecting the
tasks in the order a worker removes them from the queue. -/
def drainFrom : Nat → ThreadPool → List PoolTask
  | 0, _ => []
  | fuel + 1, s =>
      match workerBegin s with
      | WorkerView.popped t s' => t :: drainFrom fuel s'
      | _ => []

lemma workerBegin_eq_cons (s : ThreadPool) (t : PoolTask) (rest : List PoolTask)
    (h : s.tasks = t :: rest) :
    workerBegin s
      = WorkerView.popped t { s with tasks := rest, running := s.running ++ [t] } := by
  simp [workerBegin, waitPred, shouldExit, h]

lemma drainFrom_eq (n : Nat) :
    ∀ s : ThreadPool, s.tasks.length = n → drainFrom n s = s.tasks := by
  induction n with
  | zero =>
      intro s h
      rw [List.length_eq_zero] at h
      simp [drainFrom, h]
  | succ n ih =>
      intro s h
      cases htasks : s.tasks with
      | nil => rw [htasks] at h; simp at h
      | cons t rest =>
          have hb := workerBegin_eq_cons s t rest htasks
          have hlen : rest.length = n := by
            rw [htasks] at h
            simpa using h
          simp only [drainFrom, hb, htasks, List.cons.injEq, true_and]
          simpa using ih _ hlen

lemma workerBegin_popped_inv (s : ThreadPool) (t : PoolTask) (s' : ThreadPool)
    (h : workerBegin s = WorkerView.popped t s') : s.tasks = t :: s'.tasks := by
  cases htasks : s.tasks with
  | nil =>
      exfalso
      cases hstop : s.stop <;>
        simp [workerBegin, waitPred, shouldExit, htasks, hstop] at h
  | cons u rest =>
      rw [workerBegin_eq_cons s u rest htasks] at h
      rw [WorkerView.popped.injEq] at h
      obtain ⟨ht, hs⟩ := h
      subst ht
      subst hs
      simp [htasks]

/-- Claim C2: the queue is strictly FIFO.  A successful `enqueue` appends the
new task at the back of the queue; a worker's dequeue always removes the front
element; and draining the queue through the worker loop yields exactly the
queue's contents in order, so a task enqueued earlier is dequeued earlier. -/
theorem fifo_order (s : ThreadPool) (out : Outcome) :
    (∀ (s' : ThreadPool) (h : Nat), s.enqueue out = Except.ok (s', h) →
        s'.tasks = s.tasks ++ [{ id := s.nextTaskId, outcome := out }])
    ∧ (∀ (t : PoolTask) (s' : ThreadPool),
        workerBegin s = WorkerView.popped t s' → s.tasks = t :: s'.tasks)
    ∧ drainFrom s.tasks.length s = s.tasks := by
  refine ⟨?_, fun t s' h => workerBegin_popped_inv s t s' h, drainFrom_eq _ s rfl⟩
  intro s' h heq
  by_cases hw : s.workers.length = 0
  · simp [ThreadPool.enqueue, hw] at heq
  · by_cases hs : s.stop
    · simp [ThreadPool.enqueue, hw, hs] at heq
    · simp [ThreadPool.enqueue, hw, hs] at heq
      rw [← heq.1]

/-- Concrete instantiation of `fifo_order`: on `poolWithQueue` the worker's
dequeue removes the front task (id 0), leaving the rest in order. -/
theorem fifo_order_witness :
    poolWithQueue.tasks
      = { id := 0, outcome := Outcome.ok }
        :: ({ poolWithQueue with
                tasks := [{ id := 1, outcome := Outcome.stdExn },
                          { id := 2, outcome := Outcome.ok }],
                running := [{ id := 0, outcome := Outcome.ok }] } : ThreadPool).tasks :=
  (fifo_order poolWithQueue Outcome.ok).2.1 _ _ (by decide)

/-- Claim C10: `clear` modifies only the task queue; the worker collection,
the stop flag, and every other component of the pool state are unchanged. -/
theorem clear_frame (s : ThreadPool) :
    s.clear.workers = s.workers ∧ s.clear.stop = s.stop
    ∧ s.clear.running = s.running ∧ s.clear.fulfilled = s.fulfilled
    ∧ s.clear.diags = s.diags ∧ s.clear.nextTaskId = s.nextTaskId
    ∧ s.clear.nextWorkerId = s.nextWorkerId ∧ s.clear.tasks = [] := by
  simp [ThreadPool.clear]

lemma runTask_pop_fields (s : ThreadPool) (t : PoolTask) (rest : List PoolTask) :
    (runTask t { s with tasks := rest, running := s.running ++ [t] }).tasks = rest
    ∧ (runTask t { s with tasks := rest, running := s.running ++ [t] }).fulfilled
        = s.fulfilled ++ [t.id]
    ∧ (runTask t { s with tasks := rest, running := s.running ++ [t] }).workers
        = s.workers
    ∧ (runTask t { s with tasks := rest, running := s.running ++ [t] }).stop = s.stop
    ∧ (t.outcome = Outcome.ok →
        (runTask t { s with tasks := rest, running := s.running ++ [t] }).diags = s.diags)
    ∧ (t.outcome ≠ Outcome.ok →
        ∃ msg, (runTask t { s with tasks := rest, running := s.running ++ [t] }).diags
          = s.diags ++ [msg]) := by
  have hmem : t ∈ s.running ++ [t] := by simp
  obtain ⟨i, o⟩ := t
  cases o <;> simp [runTask, hmem]

lemma workerRun_drain (n : Nat) :
    ∀ s : ThreadPool, s.tasks.length = n →
      (workerRun (n + 1) s).1.tasks = []
      ∧ (workerRun (n + 1) s).1.fulfilled = s.fulfilled ++ s.tasks.map PoolTask.id
      ∧ (workerRun (n + 1) s).1.workers = s.workers
      ∧ (workerRun (n + 1) s).1.stop = s.stop
      ∧ (workerRun (n + 1) s).2 = s.stop := by
  induction n with
  | zero =>
      intro s h
      rw [List.length_eq_zero] at h
      cases hstop : s.stop <;>
        simp [workerRun, workerBegin, waitPred, shouldExit, h, hstop]
  | succ n ih =>
      intro s h
      cases htasks : s.tasks with
      | nil => rw [htasks] at h; simp at h
      | cons t rest =>
          have hb := workerBegin_eq_cons s t rest htasks
          have hlen : rest.length = n := by
            rw [htasks] at h
            simpa using h
          have hfields := runTask_pop_fields s t rest
          have hrec := ih (runTask t { s with tasks := rest, running := s.running ++ [t] })
            (by rw [hfields.1]; exact hlen)
          have hstep : workerRun (n + 1 + 1) s
              = workerRun (n + 1) (runTask t { s with tasks := rest, running := s.running ++ [t] }) := by
            simp [workerRun, hb]
          rw [hstep]
          refine ⟨hrec.1, ?_, ?_, ?_, ?_⟩
          · rw [hrec.2.1, hfields.2.1, hfields.1]
            simp [htasks]
          · rw [hrec.2.2.1, hfields.2.2.1]
          · rw [hrec.2.2.2.1, hfields.2.2.2.1]
          · rw [hrec.2.2.2.2, hfields.2.2.2.1]

/-- The pool state the destructor leaves behind when a task is still queued:
`stop` has been set while task 0 sits in the queue. -/
def shutdownPool : ThreadPool :=
  { workers := [0], tasks := [{ id := 0, outcome := Outcome.ok }], running := [],
    fulfilled := [], diags := [], stop := true, nextTaskId := 1, nextWorkerId := 1 }

/-- Claim C3 is false as stated: with the stop flag set and a task still in
the queue, the woken worker does not exit — it dequeues the task, executes it
and fulfills its result handle (the worker only exits once the queue is
empty).  Here the task queued at shutdown time ends up fulfilled. -/
theorem stop_drains_counterexample :
    workerBegin shutdownPool ≠ WorkerView.exited
    ∧ (workerRun 2 shutdownPool).1.fulfilled = [0]
    ∧ (workerRun 2 shutdownPool).2 = true := by decide

/-- Claim C3 (amended): a worker exits exactly when the stop flag is set AND
the queue is empty; once shutdown has begun (`stop` set), the worker first
drains every task still in the queue — executing it and fulfilling its result
handle — and only then exits. -/
theorem stop_exit_iff_drained (s : ThreadPool) :
    (workerBegin s = WorkerView.exited ↔ (s.stop = true ∧ s.tasks = []))
    ∧ (s.stop = true →
        (workerRun (s.tasks.length + 1) s).2 = true
        ∧ (workerRun (s.tasks.length + 1) s).1.fulfilled
            = s.fulfilled ++ s.tasks.map PoolTask.id
        ∧ (workerRun (s.tasks.length + 1) s).1.tasks = []) := by
  constructor
  · cases hstop : s.stop <;> cases htasks : s.tasks <;>
      simp [workerBegin, waitPred, shouldExit, hstop, htasks]
  · intro hstop
    have h := workerRun_drain s.tasks.length s rfl
    exact ⟨by rw [h.2.2.2.2, hstop], h.2.1, h.1⟩

/-- Concrete instantiation of `stop_exit_iff_drained` at `shutdownPool`. -/
theorem stop_exit_iff_drained_witness :
    (workerRun 2 shutdownPool).2 = true
    ∧ (workerRun 2 shutdownPool).1.fulfilled
        = shutdownPool.fulfilled ++ shutdownPool.tasks.map PoolTask.id
    ∧ (workerRun 2 shutdownPool).1.tasks = [] :=
  (stop_exit_iff_drained shutdownPool).2 rfl

/-- A pool whose front task throws a standard exception. -/
def poolFailing : ThreadPool :=
  { poolReady with
      tasks := [{ id := 0, outcome := Outcome.stdExn },
                { id := 1, outcome := Outcome.ok }],
      nextTaskId := 2 }

/-- Claim C8: a task whose body throws is caught by the worker that ran it
(standard or not), a diagnostic is emitted, its result handle is still written,
and the worker goes back to waiting: the pool's workers and stop flag are
untouched, and running the loop over the whole queue dequeues and fulfills
every task regardless of failures — the worker exits only as directed by the
stop flag, never because a task failed. -/
theorem task_failure_contained (s : ThreadPool) (t : PoolTask) (rest : List PoolTask)
    (h : s.tasks = t :: rest) :
    workerBegin s
        = WorkerView.popped t { s with tasks := rest, running := s.running ++ [t] }
    ∧ (t.outcome ≠ Outcome.ok →
        ∃ msg, (runTask t { s with tasks := rest, running := s.running ++ [t] }).diags
          = s.diags ++ [msg])
    ∧ (runTask t { s with tasks := rest, running := s.running ++ [t] }).fulfilled
        = s.fulfilled ++ [t.id]
    ∧ (runTask t { s with tasks := rest, running := s.running ++ [t] }).tasks = rest
    ∧ (runTask t { s with tasks := rest, running := s.running ++ [t] }).workers
        = s.workers
    ∧ (runTask t { s with tasks := rest, running := s.running ++ [t] }).stop = s.stop
    ∧ (workerRun (s.tasks.length + 1) s).1.fulfilled
        = s.fulfilled ++ s.tasks.map PoolTask.id
    ∧ (workerRun (s.tasks.length + 1) s).2 = s.stop := by
  have hfields := runTask_pop_fields s t rest
  have hdrain := workerRun_drain s.tasks.length s rfl
  exact ⟨workerBegin_eq_cons s t rest h, hfields.2.2.2.2.2, hfields.2.1, hfields.1,
    hfields.2.2.1, hfields.2.2.2.1, hdrain.2.1, hdrain.2.2.2.2⟩

/-- Concrete instantiation of `task_failure_contained`: on `poolFailing`
(task 0 throws, task 1 succeeds) the failure produces a diagnostic, and both
tasks are still dequeued and fulfilled with the worker left waiting. -/
theorem task_failure_contained_witness :
    (∃ msg,
      (runTask { id := 0, outcome := Outcome.stdExn }
          { poolFailing with
              tasks := [{ id := 1, outcome := Outcome.ok }],
              running := poolFailing.running
                ++ [{ id := 0, outcome := Outcome.stdExn }] }).diags
        = poolFailing.diags ++ [msg])
    ∧ (workerRun (poolFailing.tasks.length + 1) poolFailing).1.fulfilled
        = poolFailing.fulfilled ++ poolFailing.tasks.map PoolTask.id
    ∧ (workerRun (poolFailing.tasks.length + 1) poolFailing).2 = poolFailing.stop :=
  ⟨(task_failure_contained poolFailing { id := 0, outcome := Outcome.stdExn }
      [{ id := 1, outcome := Outcome.ok }] rfl).2.1 (by decide),
   (task_failure_contained poolFailing { id := 0, outcome := Outcome.stdExn }
      [{ id := 1, outcome := Outcome.ok }] rfl).2.2.2.2.2.2.1,
   (task_failure_contained poolFailing { id := 0, outcome := Outcome.stdExn }
      [{ id := 1, outcome := Outcome.ok }] rfl).2.2.2.2.2.2.2⟩

/-- The locked region of one iteration of the consume-loop installed by
`resize` growth (lines 137-148); transcribed separately because the source
duplicates the loop body, textually identical to the constructor's. -/
def grownWorkerBegin (s : ThreadPool) : WorkerView :=
  if waitPred s = false then
    WorkerView.blocked
  else if shouldExit s then
    WorkerView.exited
  else
    match s.tasks with
    | [] => WorkerView.blocked
    | t :: rest =>
        WorkerView.popped t { s with tasks := rest, running := s.running ++ [t] }

/-- Atomic actions on the shared state, for the lock-discipline model. -/
inductive Act where
  | lockAcquire
  | lockRelease
  | readStop
  | writeStop (b : Bool)
  | queuePush
  | queuePop
  | queueSwapEmpty
  | waitCV
  | notifyOne
  | notifyAll
  | joinThread (i : Nat)
  | eraseWorkers
  | invokeTask
deriving DecidableEq

/-- Pair every action of a trace with whether `queue_mutex` is held while it
executes, given the lock state on entry. -/
def annotateHeld : Bool → List Act → List (Act × Bool)
  | _, [] => []
  | _, Act.lockAcquire :: rest =>
      (Act.lockAcquire, true) :: annotateHeld true rest
  | _, Act.lockRelease :: rest =>
      (Act.lockRelease, false) :: annotateHeld false rest
  | held, a :: rest => (a, held) :: annotateHeld held rest

/-- The accesses the C4 invariant is about: reads/writes of `stop` and
mutations of the task queue. -/
def isSharedAccess : Act → Bool
  | Act.readStop => true
  | Act.writeStop _ => true
  | Act.queuePush => true
  | Act.queuePop => true
  | Act.queueSwapEmpty => true
  | _ => false

/-- A trace respects the lock discipline when every shared access happens with
the lock held. -/
def lockDisciplined (tr : List Act) : Bool :=
  (annotateHeld false tr).all fun p => !(isSharedAccess p.1) || p.2

/-- Trace of a successful `enqueue` (lines 43-55): lock, read `stop`, push,
unlock (scope end), notify one worker. -/
def enqueueTraceOk : List Act :=
  [Act.lockAcquire, Act.readStop, Act.queuePush, Act.lockRelease,
   Act.notifyOne]

/-- Trace of an `enqueue` on a stopped pool (lines 43-47): the throw unwinds
the `unique_lock`. -/
def enqueueTraceStopped : List Act :=
  [Act.lockAcquire, Act.readStop, Act.lockRelease]

/-- Trace of `clear` (lines 60-63): the swap with the empty queue — no lock is
ever taken. -/
def clearTrace : List Act :=
  [Act.queueSwapEmpty]

/-- Trace of the destructor (lines 96-105) on an `n`-worker pool: `stop` is
written and the workers notified and joined, all without taking the lock. -/
def dtorTrace (n : Nat) : List Act :=
  [Act.writeStop true, Act.notifyAll] ++ (List.range n).map Act.joinThread

/-- Trace of one worker-loop iteration that pops a task (lines 72-83): lock,
wait on the condition variable, evaluate the exit condition, pop, unlock
(scope end, line 81), invoke the task. -/
def workerIterTrace : List Act :=
  [Act.lockAcquire, Act.waitCV, Act.readStop, Act.queuePop,
   Act.lockRelease, Act.invokeTask]

/-- Trace of one iteration of the grown worker's copy of the loop
(lines 140-151), textually identical. -/
def grownWorkerIterTrace : List Act :=
  [Act.lockAcquire, Act.waitCV, Act.readStop, Act.queuePop,
   Act.lockRelease, Act.invokeTask]

/-- Trace of a worker-loop iteration that exits (lines 72-76). -/
def workerExitTrace : List Act :=
  [Act.lockAcquire, Act.waitCV, Act.readStop, Act.lockRelease]

/-- Trace of `resize` from `sz` workers to `k` (lines 107-161).  The
`unique_lock` is taken at line 109 and released only when the function
returns; a shrink writes `stop` twice, notifies `sz - k` workers, joins the
workers at indices `[k, sz)` and erases them. -/
def resizeTrace (sz k : Nat) : List Act :=
  if k < sz then
    [Act.lockAcquire, Act.writeStop true]
      ++ List.replicate (sz - k) Act.notifyOne
      ++ [Act.writeStop false]
      ++ (List.range' k (sz - k)).map Act.joinThread
      ++ [Act.eraseWorkers, Act.lockRelease]
  else
    [Act.lockAcquire, Act.lockRelease]

/-- Claim C4 is violated by the code: `clear` swaps the queue without holding
`queue_mutex`, and the destructor writes the `stop` flag without holding it,
while `enqueue`, the worker loop (including its exit-condition evaluation) and
`resize` do respect the lock discipline. -/
theorem lock_discipline_violations :
    lockDisciplined clearTrace = false
    ∧ lockDisciplined (dtorTrace 1) = false
    ∧ lockDisciplined enqueueTraceOk = true
    ∧ lockDisciplined enqueueTraceStopped = true
    ∧ lockDisciplined workerIterTrace = true
    ∧ lockDisciplined workerExitTrace = true
    ∧ lockDisciplined (resizeTrace 2 1) = true
    ∧ lockDisciplined (resizeTrace 1 2) = true := by decide

/-- Claim C5 is violated by the code: during a shrink the joins of the removed
workers execute while `queue_mutex` is still held — the lock taken at function
entry is never released before the joins. -/
theorem resize_join_holds_lock :
    (Act.joinThread 0, true) ∈ annotateHeld false (resizeTrace 1 0)
    ∧ (Act.joinThread 0, false) ∉ annotateHeld false (resizeTrace 1 0)
    ∧ (Act.joinThread 0, true) ∈ annotateHeld false (resizeTrace 2 0)
    ∧ (Act.joinThread 1, true) ∈ annotateHeld false (resizeTrace 2 0)
    ∧ (Act.joinThread 1, false) ∉ annotateHeld false (resizeTrace 2 0) := by
  decide

/-- Claim C9: in the consume-loop the pop happens under the lock, the lock is
released after the pop and before the task body is invoked, and the invocation
runs without the lock; the loop installed by `resize` growth behaves
identically. -/
theorem task_invoked_outside_lock :
    (Act.queuePop, true) ∈ annotateHeld false workerIterTrace
    ∧ (Act.invokeTask, false) ∈ annotateHeld false workerIterTrace
    ∧ (Act.invokeTask, true) ∉ annotateHeld false workerIterTrace
    ∧ workerIterTrace.indexOf Act.queuePop
        < workerIterTrace.indexOf Act.lockRelease
    ∧ workerIterTrace.indexOf Act.lockRelease
        < workerIterTrace.indexOf Act.invokeTask
    ∧ grownWorkerIterTrace = workerIterTrace
    ∧ grownWorkerBegin = workerBegin := by
  refine ⟨by decide, by decide, by decide, by decide, by decide, by decide, ?_⟩
  funext s
  rw [grownWorkerBegin, workerBegin]

/-- Claim C7: after `resize k` the worker collection has exactly `k` elements:
a shrink keeps the first `k` workers, and in its trace every removed worker
(indices `[k, sz)`) is joined before the erase; a grow appends the new workers
(which run the same consume-loop as the constructor's); resize to the current
count changes nothing. -/
theorem resize_worker_count (s : ThreadPool) (k : Nat) :
    (s.resize k).workers.length = k
    ∧ (k = s.workers.length → s.resize k = s)
    ∧ (s.workers.length < k →
        (s.resize k).workers
          = s.workers ++ List.range' s.nextWorkerId (k - s.workers.length))
    ∧ (k < s.workers.length →
        (s.resize k).workers = s.workers.take k
        ∧ ∃ pre, resizeTrace s.workers.length k
              = pre ++ [Act.eraseWorkers, Act.lockRelease]
            ∧ ∀ i, k ≤ i → i < s.workers.length → Act.joinThread i ∈ pre)
    ∧ grownWorkerBegin = workerBegin := by
  have hgrown : grownWorkerBegin = workerBegin := by
    funext s'
    rw [grownWorkerBegin, workerBegin]
  rcases Nat.lt_trichotomy k s.workers.length with h | h | h
  · refine ⟨?_, ?_, ?_, ?_, hgrown⟩
    · simp [ThreadPool.resize, h, List.length_take, Nat.min_eq_left (Nat.le_of_lt h)]
    · intro heq
      omega
    · intro hlt
      omega
    · intro _
      refine ⟨by simp [ThreadPool.resize, h], ?_⟩
      refine ⟨[Act.lockAcquire, Act.writeStop true]
          ++ List.replicate (s.workers.length - k) Act.notifyOne
          ++ [Act.writeStop false]
          ++ (List.range' k (s.workers.length - k)).map Act.joinThread, ?_, ?_⟩
      · simp [resizeTrace, h]
      · intro i hki hisz
        simp [List.mem_append, List.mem_range'_1]
        omega
  · refine ⟨?_, fun _ => ?_, ?_, ?_, hgrown⟩
    · simp [ThreadPool.resize, ← h]
    · simp [ThreadPool.resize, ← h]
    · intro hlt
      omega
    · intro hlt
      omega
  · refine ⟨?_, ?_, fun _ => ?_, ?_, hgrown⟩
    · have h1 : ¬ k < s.workers.length := by omega
      have h2 : k > s.workers.length := h
      simp [ThreadPool.resize, h1, h2]
      omega
    · intro heq
      omega
    · have h1 : ¬ k < s.workers.length := by omega
      simp [ThreadPool.resize, h1, h]
    · intro hlt
      omega

/-- Concrete instantiation of `resize_worker_count` on `poolReady` (2 workers):
shrink to 1 keeps worker 0 and joins worker 1 before erasing, grow to 4
appends workers 2 and 3, and resize to 2 is a no-op. -/
theorem resize_worker_count_witness :
    ((poolReady.resize 1).workers = poolReady.workers.take 1
      ∧ ∃ pre, resizeTrace poolReady.workers.length 1
            = pre ++ [Act.eraseWorkers, Act.lockRelease]
          ∧ ∀ i, 1 ≤ i → i < poolReady.workers.length → Act.joinThread i ∈ pre)
    ∧ (poolReady.resize 4).workers
        = poolReady.workers ++ List.range' poolReady.nextWorkerId (4 - poolReady.workers.length)
    ∧ poolReady.resize 2 = poolReady :=
  ⟨(resize_worker_count poolReady 1).2.2.2.1 (by decide),
   (resize_worker_count poolReady 4).2.2.1 (by decide),
   (resize_worker_count poolReady 2).2.1 rfl⟩

/-- All task ids tracked by the pool, zone by zone: still queued, currently
executing, already fulfilled. -/
def idsOf (s : ThreadPool) : List Nat :=
  s.tasks.map PoolTask.id ++ s.running.map PoolTask.id ++ s.fulfilled

/-- Well-formedness of a pool state: task ids are pairwise distinct across the
three zones and all lie below the fresh-id counter.  `enqueue` hands out
strictly increasing ids, so every state built from `ThreadPool.create` by the
operations satisfies this. -/
def PoolWF (s : ThreadPool) : Prop :=
  (idsOf s).Nodup ∧ ∀ i ∈ idsOf s, i < s.nextTaskId

/-- Id `i` is gone from the pool: not queued, not executing, not fulfilled,
and below the fresh-id counter (so no later `enqueue` can reissue it). -/
def NotPresent (i : Nat) (s : ThreadPool) : Prop :=
  i ∉ s.tasks.map PoolTask.id ∧ i ∉ s.running.map PoolTask.id
    ∧ i ∉ s.fulfilled ∧ i < s.nextTaskId

lemma step_enq_eq (s : ThreadPool) (out : Outcome) :
    step s (Op.enq out) = s
    ∨ step s (Op.enq out)
        = { s with tasks := s.tasks ++ [{ id := s.nextTaskId, outcome := out }],
                   nextTaskId := s.nextTaskId + 1 } := by
  by_cases hw : s.workers.length = 0
  · left
    simp [step, ThreadPool.enqueue, hw]
  · by_cases hs : s.stop
    · left
      simp [step, ThreadPool.enqueue, hw, hs]
    · right
      simp [step, ThreadPool.enqueue, hw, hs]

lemma step_begin_eq (s : ThreadPool) :
    step s Op.beginTask = s
    ∨ ∃ t rest, s.tasks = t :: rest
        ∧ step s Op.beginTask = { s with tasks := rest, running := s.running ++ [t] } := by
  cases htasks : s.tasks with
  | nil =>
      left
      cases hstop : s.stop <;>
        simp [step, workerBegin, waitPred, shouldExit, htasks, hstop]
  | cons t rest =>
      right
      exact ⟨t, rest, rfl, by simp [step, workerBegin_eq_cons s t rest htasks]⟩

lemma runTask_mem_fields (s : ThreadPool) (t : PoolTask) (hmem : t ∈ s.running) :
    (runTask t s).tasks = s.tasks ∧ (runTask t s).running = s.running.erase t
    ∧ (runTask t s).fulfilled = s.fulfilled ++ [t.id]
    ∧ (runTask t s).nextTaskId = s.nextTaskId
    ∧ (runTask t s).workers = s.workers ∧ (runTask t s).stop = s.stop := by
  obtain ⟨j, o⟩ := t
  cases o <;> simp [runTask, hmem]

lemma resize_fields (s : ThreadPool) (k : Nat) :
    (s.resize k).tasks = s.tasks ∧ (s.resize k).running = s.running
    ∧ (s.resize k).fulfilled = s.fulfilled
    ∧ (s.resize k).nextTaskId = s.nextTaskId := by
  by_cases h1 : k < s.workers.length
  · simp [ThreadPool.resize, h1]
  · by_cases h2 : k > s.workers.length
    · simp [ThreadPool.resize, h1, h2]
    · simp [ThreadPool.resize, h1, h2]

lemma notPresent_step (i : Nat) (s : ThreadPool) (op : Op)
    (h : NotPresent i s) : NotPresent i (step s op) := by
  obtain ⟨h1, h2, h3, h4⟩ := h
  cases op with
  | enq out =>
      rcases step_enq_eq s out with he | he <;> rw [he]
      · exact ⟨h1, h2, h3, h4⟩
      · refine ⟨?_, h2, h3, ?_⟩
        · simp only [List.map_append, List.map_cons, List.map_nil, List.mem_append]
          rintro (hmem | hmem)
          · exact h1 hmem
          · simp at hmem
            omega
        · simp only []
          omega
  | beginTask =>
      rcases step_begin_eq s with he | ⟨t, rest, htasks, he⟩ <;> rw [he]
      · exact ⟨h1, h2, h3, h4⟩
      · refine ⟨?_, ?_, h3, h4⟩
        · intro hmem
          exact h1 (by rw [htasks]; simpa using Or.inr hmem)
        · intro hmem
          rw [List.map_append] at hmem
          rcases List.mem_append.mp hmem with hmem | hmem
          · exact h2 hmem
          · have : i = t.id := by simpa using hmem
            exact h1 (by rw [htasks]; simp [this])
  | endTask t =>
      by_cases hmem : t ∈ s.running
      · have hf := runTask_mem_fields s t hmem
        have hne : i ≠ t.id := by
          intro heq
          exact h2 (heq ▸ List.mem_map_of_mem PoolTask.id hmem)
        have hstep : step s (Op.endTask t) = runTask t s := rfl
        rw [hstep, ]
        refine ⟨by rw [hf.1]; exact h1, ?_, ?_, by rw [hf.2.2.2.1]; exact h4⟩
        · rw [hf.2.1]
          intro hmem'
          rcases List.mem_map.mp hmem' with ⟨u, hu, hid⟩
          exact h2 (List.mem_map.mpr ⟨u, List.mem_of_mem_erase hu, hid⟩)
        · rw [hf.2.2.1]
          intro hmem'
          rcases List.mem_append.mp hmem' with hmem' | hmem'
          · exact h3 hmem'
          · exact hne (by simpa using hmem')
      · have hstep : step s (Op.endTask t) = s := by
          simp [step, runTask, hmem]
        rw [hstep]
        exact ⟨h1, h2, h3, h4⟩
  | clearOp =>
      exact ⟨by simp [step, ThreadPool.clear], h2, h3, h4⟩
  | resizeOp k =>
      have hf := resize_fields s k
      have hstep : step s (Op.resizeOp k) = s.resize k := rfl
      rw [hstep]
      exact ⟨by rw [hf.1]; exact h1, by rw [hf.2.1]; exact h2,
        by rw [hf.2.2.1]; exact h3, by rw [hf.2.2.2]; exact h4⟩
  | shutdownOp =>
      exact ⟨h1, h2, h3, h4⟩

lemma notPresent_run (i : Nat) (ops : List Op) :
    ∀ s : ThreadPool, NotPresent i s → NotPresent i (run s ops) := by
  induction ops with
  | nil => intro s h; exact h
  | cons op ops ih => intro s h; exact ih _ (notPresent_step i s op h)

/-- Claim C6: after `clear` the pending queue is empty; tasks already dequeued
by a worker (`running`) are unaffected and still run to completion, fulfilling
their handles as usual; and a task that was still waiting in the queue is
discarded for good — under every sequence of subsequent pool operations its
result handle is never fulfilled. -/
theorem clear_discards_queued (s : ThreadPool) (t : PoolTask)
    (ht : t ∈ s.tasks) (hinv : PoolWF s) :
    s.clear.tasks = [] ∧ s.clear.running = s.running
    ∧ (∀ u ∈ s.running, (runTask u s.clear).fulfilled = s.fulfilled ++ [u.id])
    ∧ ∀ ops, t.id ∉ (run s.clear ops).fulfilled := by
  obtain ⟨hnodup, hbound⟩ := hinv
  have hid : t.id ∈ s.tasks.map PoolTask.id := List.mem_map_of_mem _ ht
  rw [idsOf] at hnodup
  have hsplit := List.nodup_append.mp hnodup
  have hsplit2 := List.nodup_append.mp hsplit.1
  have hnotrun : t.id ∉ s.running.map PoolTask.id := hsplit2.2.2 hid
  have hnotful : t.id ∉ s.fulfilled := hsplit.2.2 (List.mem_append_left _ hid)
  have hnp : NotPresent t.id s.clear := by
    refine ⟨by simp [ThreadPool.clear], hnotrun, hnotful, ?_⟩
    exact hbound t.id
      (by rw [idsOf]; exact List.mem_append_left _ (List.mem_append_left _ hid))
  refine ⟨rfl, rfl, ?_, fun ops => (notPresent_run t.id ops s.clear hnp).2.2.1⟩
  intro u hu
  have hu' : u ∈ s.clear.running := hu
  exact (runTask_mem_fields s.clear u hu').2.2.1

/-- Concrete instantiation of `clear_discards_queued`: on `poolWithQueue`,
task 1 is waiting in the queue when `clear` runs, and its handle is never
fulfilled afterwards, whatever operations follow. -/
theorem clear_discards_queued_witness :
    poolWithQueue.clear.tasks = [] ∧ poolWithQueue.clear.running = poolWithQueue.running
    ∧ (∀ u ∈ poolWithQueue.running,
        (runTask u poolWithQueue.clear).fulfilled = poolWithQueue.fulfilled ++ [u.id])
    ∧ ∀ ops, (1 : Nat) ∉ (run poolWithQueue.clear ops).fulfilled :=
  clear_discards_queued poolWithQueue { id := 1, outcome := Outcome.stdExn }
    (by decide) (by unfold PoolWF idsOf; exact ⟨by decide, by decide⟩)
